import Mathlib

/-!
# SimpleEQ: the response curve computed by the editor

A shallow embedding of `Source/PluginEditor.cpp`:

* `SimpleEQAudioProcessorEditor::paint` (the per-pixel magnitude loop, the
  decibel conversion, the vertical mapping and the polyline construction);
* `parameterGestureChanged` / `timerCallback` (the change-detection flag).

Arithmetic on `double` is embedded in an arbitrary linearly ordered field `α`;
the two libm functions the code reaches (`std::log10` and `std::pow (10, ·)`)
are parameters `log10` and `pow10`, so every definition is executable at `ℚ`
and is read over the reals by taking `Real.logb 10` and `fun x => 10 ^ x`.
Rounding of floating point arithmetic is not part of the embedding.
-/

namespace SimpleEQ

/-! ## Data model -/

/-- Modelled from the spec: the Filter Stage type (declared in PluginProcessor.h,
which is not among the sources). Only the coefficients value is read by the
editor; its representation `κ` is arbitrary. -/
structure Filter (κ : Type) where
  coefficients : κ

/-- Modelled from the spec: the Cascade type `CutFilter` (declared in
PluginProcessor.h): exactly four Filter Stage slots, `get k`, each with its own
bypass flag, `isBypassed k`. -/
structure CutFilter (κ : Type) where
  get : Fin 4 → Filter κ
  isBypassed : Fin 4 → Bool

/-- Modelled from the spec: the three named positions of the Chain. -/
inductive ChainPositions where
  | LowCut
  | Peak
  | HighCut
  deriving DecidableEq, Repr

/-- Modelled from the spec: the Chain type `MonoChain` (declared in
PluginProcessor.h): LowCut cascade, Peak stage, HighCut cascade, and one
position-level bypass flag for each of the three positions. -/
structure MonoChain (κ : Type) where
  lowCut : CutFilter κ
  peak : Filter κ
  highCut : CutFilter κ
  isBypassed : ChainPositions → Bool

section Numeric

variable {α : Type} [LinearOrderedField α] {κ : Type}

/-! ## Library functions reached by `paint` -/

/-- Modelled from the spec: `jmap (sourceValue, sourceRangeMin, sourceRangeMax,
targetRangeMin, targetRangeMax)`, the linear remapping of a value from a source
range to a target range (library code, not among the sources). -/
def jmap (sourceValue sourceRangeMin sourceRangeMax targetRangeMin targetRangeMax : α) : α :=
  targetRangeMin
    + ((targetRangeMax - targetRangeMin) * (sourceValue - sourceRangeMin))
      / (sourceRangeMax - sourceRangeMin)

/-- Modelled from the spec: `mapToLog10 (value0To1, logRangeMin, logRangeMax)`,
ten to the power of the linear interpolation between the base ten logarithms of
the two bounds (library code, not among the sources). -/
def mapToLog10 (log10 pow10 : α → α) (value0To1 logRangeMin logRangeMax : α) : α :=
  let logMin := log10 logRangeMin
  let logMax := log10 logRangeMax
  pow10 (value0To1 * (logMax - logMin) + logMin)

/-- Modelled from the spec: the default floor of `Decibels::gainToDecibels`. -/
def defaultMinusInfinitydB : α := -100

/-- Modelled from the spec: `Decibels::gainToDecibels (gain)`, twenty times the
base ten logarithm of a positive gain, floored at minus one hundred decibels;
the floor itself for a gain that is not positive (library code, not among the
sources). -/
def gainToDecibels (log10 : α → α) (gain : α) : α :=
  if gain > 0 then max defaultMinusInfinitydB (log10 gain * 20) else defaultMinusInfinitydB

/-! ## `paint`: the per-pixel loop body (lines 62 to 101)

`getMagnitudeForFrequency coefficients freq sampleRate` is the library method
of the coefficients object; it is a parameter of the embedding. -/

/-- Lines 65 to 68: the Peak block. -/
def peakBlock (getMagnitudeForFrequency : κ → α → α → α) (monoChain : MonoChain κ)
    (freq sampleRate mag : α) : α :=
  if !monoChain.isBypassed ChainPositions.Peak then
    mag * getMagnitudeForFrequency monoChain.peak.coefficients freq sampleRate
  else mag

/-- One statement of lines 69 to 84: stage `k` of the low cut cascade. -/
def lowCutStage (getMagnitudeForFrequency : κ → α → α → α) (monoChain : MonoChain κ)
    (freq sampleRate : α) (k : Fin 4) (mag : α) : α :=
  if !monoChain.lowCut.isBypassed k then
    mag * getMagnitudeForFrequency (monoChain.lowCut.get k).coefficients freq sampleRate
  else mag

/-- One statement of lines 86 to 101: the guard reads the bypass flag of stage `k`
of the high cut cascade, the factor is read from stage `k` of the LOW cut
cascade, as written in the source. -/
def highCutStage (getMagnitudeForFrequency : κ → α → α → α) (monoChain : MonoChain κ)
    (freq sampleRate : α) (k : Fin 4) (mag : α) : α :=
  if !monoChain.highCut.isBypassed k then
    mag * getMagnitudeForFrequency (monoChain.lowCut.get k).coefficients freq sampleRate
  else mag

/-- Lines 69 to 84: the four low cut statements, in order. -/
def lowCutBlock (getMagnitudeForFrequency : κ → α → α → α) (monoChain : MonoChain κ)
    (freq sampleRate mag : α) : α :=
  let mag := lowCutStage getMagnitudeForFrequency monoChain freq sampleRate 0 mag
  let mag := lowCutStage getMagnitudeForFrequency monoChain freq sampleRate 1 mag
  let mag := lowCutStage getMagnitudeForFrequency monoChain freq sampleRate 2 mag
  lowCutStage getMagnitudeForFrequency monoChain freq sampleRate 3 mag

/-- Lines 86 to 101: the four high cut statements, in order. -/
def highCutBlock (getMagnitudeForFrequency : κ → α → α → α) (monoChain : MonoChain κ)
    (freq sampleRate mag : α) : α :=
  let mag := highCutStage getMagnitudeForFrequency monoChain freq sampleRate 0 mag
  let mag := highCutStage getMagnitudeForFrequency monoChain freq sampleRate 1 mag
  let mag := highCutStage getMagnitudeForFrequency monoChain freq sampleRate 2 mag
  highCutStage getMagnitudeForFrequency monoChain freq sampleRate 3 mag

/-- Lines 62 to 101 without line 63: the linear magnitude accumulated for one
pixel, starting from `mag = 1`. -/
def pixelMag (getMagnitudeForFrequency : κ → α → α → α) (monoChain : MonoChain κ)
    (freq sampleRate : α) : α :=
  let mag : α := 1
  let mag := peakBlock getMagnitudeForFrequency monoChain freq sampleRate mag
  let mag := lowCutBlock getMagnitudeForFrequency monoChain freq sampleRate mag
  highCutBlock getMagnitudeForFrequency monoChain freq sampleRate mag

/-- Lines 62 to 103 without line 63: the decibel value stored for one pixel. -/
def pixelDb (log10 : α → α) (getMagnitudeForFrequency : κ → α → α → α)
    (monoChain : MonoChain κ) (freq sampleRate : α) : α :=
  gainToDecibels log10 (pixelMag getMagnitudeForFrequency monoChain freq sampleRate)

/-- Line 63: the frequency of pixel `i` of `w`, with the division done on
`double` values. -/
def pixelFreq (log10 pow10 : α → α) (i w : Nat) : α :=
  mapToLog10 log10 pow10 ((i : α) / (w : α)) 20 20000

/-- Lines 60 to 104: the loop over the pixels, each iteration assigning
`mags[i]`. The vector it writes to is an argument. -/
def magsLoop (log10 pow10 : α → α) (getMagnitudeForFrequency : κ → α → α → α)
    (monoChain : MonoChain κ) (sampleRate : α) (w : Nat) (mags : List α) : List α :=
  (List.range w).foldl
    (fun mags i =>
      mags.set i (pixelDb log10 getMagnitudeForFrequency monoChain
        (pixelFreq log10 pow10 i w) sampleRate))
    mags

/-- Lines 56 to 104: a fresh vector resized to `w` zeros, then the loop. -/
def computeMags (log10 pow10 : α → α) (getMagnitudeForFrequency : κ → α → α → α)
    (monoChain : MonoChain κ) (sampleRate : α) (w : Nat) : List α :=
  magsLoop log10 pow10 getMagnitudeForFrequency monoChain sampleRate w (List.replicate w 0)

/-! ## `paint`: the curve (lines 106 to 120) -/

/-- Lines 108 to 113: the lambda `map`, with `outputMin` the bottom of the
response area and `outputMax` its top. -/
def map (outputMin outputMax input : α) : α :=
  jmap input (-24) 24 outputMin outputMax

/-- One iteration of the loop of lines 117 to 120: `lineTo (getX + i, map (mags[i]))`.
The access `mags[i]` is checked: out of bounds gives `none`. -/
def lineToStep (getX : Int) (outputMin outputMax : α) (mags : List α)
    (responseCurve : List (Int × α)) (i : Nat) : Option (List (Int × α)) :=
  match mags[i]? with
  | none => none
  | some m => some (responseCurve ++ [(getX + (i : Int), map outputMin outputMax m)])

/-- Lines 115 to 120: `startNewSubPath` at `mags.front ()`, then one `lineTo`
for every `i` from `1` below `mags.size ()`. The result is the sequence of
points handed to the path, or `none` when an element access has no element. -/
def buildCurve (getX : Int) (outputMin outputMax : α) (mags : List α) :
    Option (List (Int × α)) :=
  match mags.head? with
  | none => none
  | some m0 =>
    (List.range' 1 (mags.length - 1)).foldlM
      (lineToStep getX outputMin outputMax mags)
      [(getX, map outputMin outputMax m0)]

/-- Lines 56 to 120: the points handed to the response curve for a response
area of width `w`, left edge `getX`, bottom `outputMin` and top `outputMax`. -/
def paint (log10 pow10 : α → α) (getMagnitudeForFrequency : κ → α → α → α)
    (monoChain : MonoChain κ) (sampleRate : α) (getX : Int) (outputMin outputMax : α)
    (w : Nat) : Option (List (Int × α)) :=
  let mags := computeMags log10 pow10 getMagnitudeForFrequency monoChain sampleRate w
  buildCurve getX outputMin outputMax mags

/-! ## The composition the specification describes -/

/-- Composite magnitude of a cascade in the words of the specification: the
product of the magnitudes of its own stages that are not bypassed. -/
def cascadeMagnitudeSpec (getMagnitudeForFrequency : κ → α → α → α) (cascade : CutFilter κ)
    (freq sampleRate : α) : α :=
  ∏ k : Fin 4,
    if cascade.isBypassed k then 1
    else getMagnitudeForFrequency (cascade.get k).coefficients freq sampleRate

/-- Composite linear magnitude in the words of the specification: the peak
magnitude unless Peak is bypassed, times the composite of the low cut cascade,
times the composite of the high cut cascade taken on its own stages. -/
def compositeMagnitudeSpec (getMagnitudeForFrequency : κ → α → α → α)
    (monoChain : MonoChain κ) (freq sampleRate : α) : α :=
  (if monoChain.isBypassed ChainPositions.Peak then 1
    else getMagnitudeForFrequency monoChain.peak.coefficients freq sampleRate)
  * cascadeMagnitudeSpec getMagnitudeForFrequency monoChain.lowCut freq sampleRate
  * cascadeMagnitudeSpec getMagnitudeForFrequency monoChain.highCut freq sampleRate

/-- Composite linear magnitude of a chain that lacks position `p`, in the words
of the specification: the product formed by `compositeMagnitudeSpec`, with the
factor of `p` replaced by 1. Each remaining cascade is composed from its own
stages; nothing of position `p` is read. -/
def compositeMagnitudeWithoutSpec (getMagnitudeForFrequency : κ → α → α → α)
    (p : ChainPositions) (monoChain : MonoChain κ) (freq sampleRate : α) : α :=
  (if p = ChainPositions.Peak then 1
    else if monoChain.isBypassed ChainPositions.Peak then 1
    else getMagnitudeForFrequency monoChain.peak.coefficients freq sampleRate)
  * (if p = ChainPositions.LowCut then 1
    else cascadeMagnitudeSpec getMagnitudeForFrequency monoChain.lowCut freq sampleRate)
  * (if p = ChainPositions.HighCut then 1
    else cascadeMagnitudeSpec getMagnitudeForFrequency monoChain.highCut freq sampleRate)

/-- The decibel value of a chain that lacks position `p`, in the words of the
specification. -/
def compositeDbWithoutSpec (log10 : α → α) (getMagnitudeForFrequency : κ → α → α → α)
    (p : ChainPositions) (monoChain : MonoChain κ) (freq sampleRate : α) : α :=
  gainToDecibels log10
    (compositeMagnitudeWithoutSpec getMagnitudeForFrequency p monoChain freq sampleRate)

/-- The sampled response in the words of the specification: for every pixel
index `i` below `pixelWidth`, the decibel value of the composite magnitude
`compositeMagnitudeSpec` at the frequency of the position `i / pixelWidth`. -/
def sampleResponseSpec (log10 pow10 : α → α) (getMagnitudeForFrequency : κ → α → α → α)
    (chain : MonoChain κ) (sampleRate : α) (pixelWidth : Nat) : List α :=
  (List.range pixelWidth).map (fun (i : Nat) =>
    gainToDecibels log10
      (compositeMagnitudeSpec getMagnitudeForFrequency chain
        (mapToLog10 log10 pow10 ((i : α) / (pixelWidth : α)) 20 20000) sampleRate))

/-! ## Concrete chains used to evaluate the definitions -/

/-- A coefficients representation for stages that are pure gains: the
coefficients value is the gain, the magnitude is its absolute value at every
frequency and sample rate. -/
def gainMagnitude (coefficients _freq _sampleRate : α) : α := |coefficients|

/-- A chain of pure gain stages. -/
def gainChain (peakGain : α) (lowGain highGain : Fin 4 → α)
    (lowBypassed highBypassed : Fin 4 → Bool) (bypassed : ChainPositions → Bool) :
    MonoChain α where
  lowCut := { get := fun k => { coefficients := lowGain k }, isBypassed := lowBypassed }
  peak := { coefficients := peakGain }
  highCut := { get := fun k => { coefficients := highGain k }, isBypassed := highBypassed }
  isBypassed := bypassed

/-- Peak bypassed, the four low cut stages bypassed (gain 3 each), high cut
stage 0 active with gain 2, high cut stages 1 to 3 bypassed. -/
def highCutOnlyChain : MonoChain α :=
  gainChain 1 (fun _ => 3) (fun _ => 2) (fun _ => true) (fun k => decide (k ≠ 0))
    (fun p => decide (p = ChainPositions.Peak))

/-- Every stage active: peak gain 2, low cut gains 3, 5, 7, 11, high cut gains
`h` each, no position bypassed. -/
def allActiveChain (h : α) : MonoChain α :=
  gainChain 2 (fun k => if k = 0 then 3 else if k = 1 then 5 else if k = 2 then 7 else 11)
    (fun _ => h) (fun _ => false) (fun _ => false) (fun _ => false)

/-- LowCut marked bypassed at the position level, its stage 0 active with gain
10, its stages 1 to 3 bypassed; Peak bypassed; the four high cut stages
bypassed. -/
def lowCutPositionBypassedChain : MonoChain α :=
  gainChain 1 (fun _ => 10) (fun _ => 1) (fun k => decide (k ≠ 0)) (fun _ => true)
    (fun _ => true)

/-- Peak bypassed, the four low cut stages bypassed (gain 3 each), high cut
stage 0 active with the same gain 3, high cut stages 1 to 3 bypassed: the high
cut block of `paint` multiplies in what the high cut stages themselves give. -/
def matchedCutsChain : MonoChain α :=
  gainChain 1 (fun _ => 3) (fun _ => 3) (fun _ => true) (fun k => decide (k ≠ 0))
    (fun p => decide (p = ChainPositions.Peak))

/-- Every stage of both cascades bypassed, a peak of gain 1, no position
bypassed. -/
def unityChain : MonoChain α :=
  gainChain 1 (fun _ => 7) (fun _ => 9) (fun _ => true) (fun _ => true) (fun _ => false)

end Numeric

/-! ## Change detection (lines 153 to 166) -/

/-- Line 155: `parametersChanged.set (true)`. -/
def parameterGestureChanged (_parametersChanged : Bool) : Bool := true

/-- Modelled from the spec: `compareAndSetBool (newValue, valueToCompare)` on the
flag: when the flag equals `valueToCompare` it becomes `newValue` and the call
answers true, otherwise the flag is kept and the call answers false (library
code, not among the sources). Result: the flag afterwards and the answer. -/
def compareAndSetBool (value newValue valueToCompare : Bool) : Bool × Bool :=
  if value = valueToCompare then (newValue, true) else (value, false)

/-- Lines 158 to 166: the flag afterwards, and whether the update branch was
entered. -/
def timerCallback (parametersChanged : Bool) : Bool × Bool :=
  let r := compareAndSetBool parametersChanged false true
  if r.2 then (r.1, true) else (r.1, false)

/-- The two events that touch the flag. -/
inductive Event where
  | notification
  | tick
  deriving DecidableEq, Repr

/-- One event applied to the flag: the flag afterwards, and whether an update
cycle ran. -/
def step (flag : Bool) : Event → Bool × Bool
  | Event.notification => (parameterGestureChanged flag, false)
  | Event.tick => timerCallback flag

/-- The flag after a sequence of events. -/
def flagAfter (flag : Bool) : List Event → Bool
  | [] => flag
  | e :: es => flagAfter (step flag e).1 es

/-- For every event of a sequence, in order, whether it ran an update cycle. -/
def updates (flag : Bool) : List Event → List Bool
  | [] => []
  | e :: es => (step flag e).2 :: updates (step flag e).1 es

/-! ## Shared lemmas -/

section Lemmas

variable {α : Type} [LinearOrderedField α] {κ : Type}

/-- A guarded multiplication is a multiplication by the factor or by one. -/
theorem guarded_mul (b : Bool) (mag x : α) :
    (if (!b) = true then mag * x else mag) = mag * (if b = true then 1 else x) := by
  cases b <;> simp

/-- The accumulated magnitude as a product of three factors. -/
theorem pixelMag_eq_prod (M : κ → α → α → α) (c : MonoChain κ) (f sr : α) :
    pixelMag M c f sr
      = (if c.isBypassed ChainPositions.Peak then 1 else M c.peak.coefficients f sr)
        * (∏ k : Fin 4, if c.lowCut.isBypassed k then 1
            else M (c.lowCut.get k).coefficients f sr)
        * (∏ k : Fin 4, if c.highCut.isBypassed k then 1
            else M (c.lowCut.get k).coefficients f sr) := by
  simp only [pixelMag, peakBlock, lowCutBlock, highCutBlock, lowCutStage, highCutStage,
    guarded_mul, Fin.prod_univ_four]
  ring

/-- The loop writes entry `j` for every `j` below `n` and keeps the rest. -/
theorem foldl_set_getElem? {β : Type} (g : Nat → β) (n : Nat) (init : List β) (j : Nat) :
    ((List.range n).foldl (fun mags i => mags.set i (g i)) init)[j]?
      = if j < n ∧ j < init.length then some (g j) else init[j]? := by
  induction n with
  | zero => simp
  | succ n ih =>
    rw [List.range_succ, List.foldl_append]
    simp only [List.foldl_cons, List.foldl_nil, List.getElem?_set]
    by_cases hj : n = j
    · subst hj
      have hlen : ((List.range n).foldl (fun mags i => mags.set i (g i)) init).length
          = init.length := by
        clear ih
        induction n generalizing init with
        | zero => simp
        | succ m ihm =>
          rw [List.range_succ, List.foldl_append]
          simp [ihm]
      rw [hlen]
      by_cases hl : n < init.length
      · simp [hl]
      · simp [hl]
        omega
    · simp only [hj, if_false, ih]
      have : (j < n + 1 ∧ j < init.length) ↔ (j < n ∧ j < init.length) := by
        constructor
        · rintro ⟨h1, h2⟩
          exact ⟨by omega, h2⟩
        · rintro ⟨h1, h2⟩
          exact ⟨by omega, h2⟩
      simp only [this]

/-- Whatever the vector of length `w` held before, after the loop it holds the
decibel value of every pixel. -/
theorem magsLoop_eq_map (log10 pow10 : α → α) (M : κ → α → α → α) (c : MonoChain κ)
    (sr : α) (w : Nat) (init : List α) (hinit : init.length = w) :
    magsLoop log10 pow10 M c sr w init
      = (List.range w).map (fun i => pixelDb log10 M c (pixelFreq log10 pow10 i w) sr) := by
  apply List.ext_getElem?
  intro j
  unfold magsLoop
  rw [foldl_set_getElem? (fun i => pixelDb log10 M c (pixelFreq log10 pow10 i w) sr)]
  by_cases hj : j < w
  · simp [hj, hinit, List.getElem?_range hj]
  · have h1 : init[j]? = none := List.getElem?_eq_none (by omega)
    have h2 : ((List.range w).map
        (fun i => pixelDb log10 M c (pixelFreq log10 pow10 i w) sr))[j]? = none :=
      List.getElem?_eq_none (by simp; omega)
    simp [hj, h1, h2]

/-- The response as the list of the per pixel decibel values. -/
theorem computeMags_eq_map (log10 pow10 : α → α) (M : κ → α → α → α) (c : MonoChain κ)
    (sr : α) (w : Nat) :
    computeMags log10 pow10 M c sr w
      = (List.range w).map (fun i => pixelDb log10 M c (pixelFreq log10 pow10 i w) sr) :=
  magsLoop_eq_map log10 pow10 M c sr w (List.replicate w 0) (by simp)

/-- The response has one entry for every pixel. -/
theorem computeMags_length (log10 pow10 : α → α) (M : κ → α → α → α) (c : MonoChain κ)
    (sr : α) (w : Nat) : (computeMags log10 pow10 M c sr w).length = w := by
  simp [computeMags_eq_map]

/-- Entry `i` of the response. -/
theorem computeMags_getElem? (log10 pow10 : α → α) (M : κ → α → α → α) (c : MonoChain κ)
    (sr : α) (w i : Nat) (hi : i < w) :
    (computeMags log10 pow10 M c sr w)[i]?
      = some (pixelDb log10 M c (pixelFreq log10 pow10 i w) sr) := by
  simp [computeMags_eq_map, List.getElem?_range hi]

/-- The high cut block started from 1, as a product. -/
theorem highCutBlock_one_eq_prod (M : κ → α → α → α) (c : MonoChain κ) (f sr : α) :
    highCutBlock M c f sr 1
      = ∏ k : Fin 4, if c.highCut.isBypassed k then 1
          else M (c.lowCut.get k).coefficients f sr := by
  simp only [highCutBlock, highCutStage, guarded_mul, Fin.prod_univ_four]
  ring

/-- Where the high cut block multiplies in the composite of the high cut stages
themselves, `paint` accumulates the composite of the specification. -/
theorem pixelMag_eq_spec_of_highCut_own (M : κ → α → α → α) (c : MonoChain κ) (f sr : α)
    (hown : highCutBlock M c f sr 1 = cascadeMagnitudeSpec M c.highCut f sr) :
    pixelMag M c f sr = compositeMagnitudeSpec M c f sr := by
  rw [pixelMag_eq_prod, ← highCutBlock_one_eq_prod, hown]
  rfl

/-- Where the high cut block multiplies in the composite of the high cut stages
themselves at every frequency, the response of `paint` is the sampled response
of the specification. -/
theorem computeMags_eq_sampleResponseSpec_of_highCut_own (log10 pow10 : α → α)
    (M : κ → α → α → α) (c : MonoChain κ) (sr : α) (w : Nat)
    (hown : ∀ f, highCutBlock M c f sr 1 = cascadeMagnitudeSpec M c.highCut f sr) :
    computeMags log10 pow10 M c sr w = sampleResponseSpec log10 pow10 M c sr w := by
  rw [computeMags_eq_map]
  unfold sampleResponseSpec
  apply List.map_congr_left
  intro i _
  rw [pixelDb, pixelMag_eq_spec_of_highCut_own M c _ sr (hown _)]
  rfl

/-- A cascade with its four stages bypassed has composite magnitude 1. -/
theorem cascadeMagnitudeSpec_all_bypassed (M : κ → α → α → α) (cascade : CutFilter κ)
    (f sr : α) (h : ∀ k, cascade.isBypassed k = true) :
    cascadeMagnitudeSpec M cascade f sr = 1 := by
  simp [cascadeMagnitudeSpec, h]

/-- Zero decibels for a unit gain, over the reals. -/
theorem gainToDecibels_one : gainToDecibels (Real.logb 10) (1 : ℝ) = 0 := by
  simp [gainToDecibels, defaultMinusInfinitydB]

/-- The stored decibel value is never below the floor, whatever the logarithm. -/
theorem gainToDecibels_ge_floor (log10 : α → α) (m : α) :
    -100 ≤ gainToDecibels log10 m := by
  unfold gainToDecibels defaultMinusInfinitydB
  split_ifs
  · exact le_max_left _ _
  · exact le_refl _

/-- The span of the two bounds is three decades. -/
theorem logb_span : Real.logb 10 20000 - Real.logb 10 20 = 3 := by
  rw [← Real.logb_div (by norm_num) (by norm_num)]
  have h : (20000 : ℝ) / 20 = (10 : ℝ) ^ (3 : ℝ) := by
    rw [show (3 : ℝ) = ((3 : ℕ) : ℝ) by norm_num, Real.rpow_natCast]
    norm_num
  rw [h, Real.logb_rpow (by norm_num) (by norm_num)]

/-- The frequency mapper over the reals, in closed form. -/
theorem mapToLog10_closed_form (t : ℝ) :
    mapToLog10 (Real.logb 10) (fun x => (10 : ℝ) ^ x) t 20 20000 = 20 * (1000 : ℝ) ^ t := by
  simp only [mapToLog10, logb_span]
  rw [Real.rpow_add (by norm_num), Real.rpow_logb (by norm_num) (by norm_num) (by norm_num),
    mul_comm t 3, Real.rpow_mul (by norm_num)]
  have h : (10 : ℝ) ^ (3 : ℝ) = 1000 := by
    rw [show (3 : ℝ) = ((3 : ℕ) : ℝ) by norm_num, Real.rpow_natCast]
    norm_num
  rw [h]
  ring

/-- The logarithm of the epsilon of the decibel conversion. -/
theorem logb_epsilon : Real.logb 10 ((10 : ℝ) ^ (-5 : ℝ)) = -5 :=
  Real.logb_rpow (by norm_num) (by norm_num)

/-- The epsilon of the decibel conversion is positive. -/
theorem epsilon_pos : (0 : ℝ) < (10 : ℝ) ^ (-5 : ℝ) :=
  Real.rpow_pos_of_pos (by norm_num) _

/-- The decibel conversion over the reals clamps the gain at the epsilon. -/
theorem gainToDecibels_eq_clamped (m : ℝ) :
    gainToDecibels (Real.logb 10) m = 20 * Real.logb 10 (max m ((10 : ℝ) ^ (-5 : ℝ))) := by
  unfold gainToDecibels defaultMinusInfinitydB
  by_cases hm : m > 0
  · rw [if_pos hm]
    by_cases he : (10 : ℝ) ^ (-5 : ℝ) ≤ m
    · rw [max_eq_left he]
      have h5 : -5 ≤ Real.logb 10 m := by
        rw [← logb_epsilon]
        exact (Real.logb_le_logb (by norm_num) epsilon_pos hm).2 he
      rw [max_eq_right (by linarith)]
      ring
    · have he2 : m < (10 : ℝ) ^ (-5 : ℝ) := lt_of_not_le he
      rw [max_eq_right (le_of_lt he2), logb_epsilon]
      have h5 : Real.logb 10 m < -5 := by
        rw [← logb_epsilon]
        exact Real.logb_lt_logb (by norm_num) hm he2
      rw [max_eq_left (by linarith)]
      norm_num
  · rw [if_neg hm]
    have hle : m ≤ (10 : ℝ) ^ (-5 : ℝ) := le_trans (le_of_not_lt hm) (le_of_lt epsilon_pos)
    rw [max_eq_right hle, logb_epsilon]
    norm_num

/-- The vertical mapper in closed form. -/
theorem map_closed_form (outputMin outputMax dB : α) :
    map outputMin outputMax dB = outputMin + (outputMax - outputMin) * (dB + 24) / 48 := by
  unfold map jmap
  norm_num

/-- The polyline loop over indices that are all in bounds appends one point for
each of them. -/
theorem foldlM_lineToStep (getX : Int) (lo hi : α) (mags : List α) (g : Nat → α)
    (idx : List Nat) (hidx : ∀ i ∈ idx, mags[i]? = some (g i)) (acc : List (Int × α)) :
    idx.foldlM (lineToStep getX lo hi mags) acc
      = some (acc ++ idx.map (fun (i : Nat) => (getX + (i : Int), map lo hi (g i)))) := by
  induction idx generalizing acc with
  | nil => simp
  | cons i rest ih =>
    have hi0 : mags[i]? = some (g i) := hidx i (List.mem_cons_self _ _)
    have hrest : ∀ j ∈ rest, mags[j]? = some (g j) :=
      fun j hj => hidx j (List.mem_cons_of_mem _ hj)
    rw [List.foldlM_cons]
    simp only [lineToStep, hi0, Option.some_bind, Option.bind_eq_bind]
    rw [ih hrest]
    simp

/-- The curve of a response of width `w + 1`. -/
theorem paint_succ (log10 pow10 : α → α) (M : κ → α → α → α) (c : MonoChain κ)
    (sr : α) (getX : Int) (lo hi : α) (w : Nat) :
    paint log10 pow10 M c sr getX lo hi (w + 1)
      = some ((List.range (w + 1)).map (fun (i : Nat) =>
          (getX + (i : Int),
            map lo hi (pixelDb log10 M c (pixelFreq log10 pow10 i (w + 1)) sr)))) := by
  have hget : ∀ i, i < w + 1 →
      (computeMags log10 pow10 M c sr (w + 1))[i]?
        = some (pixelDb log10 M c (pixelFreq log10 pow10 i (w + 1)) sr) :=
    fun i hi => computeMags_getElem? log10 pow10 M c sr (w + 1) i hi
  have hhead : (computeMags log10 pow10 M c sr (w + 1)).head?
      = some (pixelDb log10 M c (pixelFreq log10 pow10 0 (w + 1)) sr) := by
    rw [← hget 0 (by omega)]
    cases computeMags log10 pow10 M c sr (w + 1) <;> simp
  unfold paint buildCurve
  simp only [hhead, computeMags_length]
  rw [foldlM_lineToStep getX lo hi _
    (fun i => pixelDb log10 M c (pixelFreq log10 pow10 i (w + 1)) sr)]
  · rw [List.range_eq_range', List.range'_succ]
    simp
  · intro i hi
    rw [List.mem_range'_1] at hi
    exact hget i (by omega)

/-- A tick always leaves the flag clear and updates exactly when it was set. -/
theorem step_tick (flag : Bool) : step flag Event.tick = (false, flag) := by
  cases flag <;> rfl

/-- A notification sets the flag and runs no update. -/
theorem step_notification (flag : Bool) : step flag Event.notification = (true, false) := rfl

/-- The outcome of event `k` is the step taken from the flag left by the first
`k` events. -/
theorem updates_getElem? (flag : Bool) (es : List Event) (k : Nat) :
    (updates flag es)[k]?
      = (es[k]?).map (fun e => (step (flagAfter flag (es.take k)) e).2) := by
  induction es generalizing flag k with
  | nil => simp [updates]
  | cons e es ih =>
    cases k with
    | zero => simp [updates, flagAfter]
    | succ k => simp [updates, flagAfter, ih]

/-- The flag after `k + 1` events is one step from the flag after `k` events. -/
theorem flagAfter_take_succ (flag : Bool) (es : List Event) (k : Nat) (e : Event)
    (he : es[k]? = some e) :
    flagAfter flag (es.take (k + 1)) = (step (flagAfter flag (es.take k)) e).1 := by
  induction es generalizing flag k with
  | nil => simp at he
  | cons a es ih =>
    cases k with
    | zero =>
      simp at he
      subst he
      simp [flagAfter]
    | succ k =>
      simp at he
      simp [flagAfter, ih _ k he]

/-- Starting with the flag clear, the flag is set after the first `k` events
exactly when a notification occurred with no tick after it. -/
theorem flagAfter_take_iff (es : List Event) (k : Nat) (hk : k ≤ es.length) :
    flagAfter false (es.take k) = true
      ↔ ∃ j : Nat, j < k ∧ es[j]? = some Event.notification
          ∧ ∀ m : Nat, j < m → m < k → es[m]? ≠ some Event.tick := by
  cases k with
  | zero => simp [flagAfter]
  | succ k =>
    have hlt : k < es.length := hk
    have hek : es[k]? = some es[k] := List.getElem?_eq_getElem hlt
    rw [flagAfter_take_succ false es k es[k] hek]
    cases hcase : es[k] with
    | notification =>
      rw [step_notification]
      simp only [true_iff]
      refine ⟨k, Nat.lt_succ_self k, ?_, ?_⟩
      · rw [hek, hcase]
      · intro m h1 h2
        omega
    | tick =>
      rw [step_tick]
      simp only [Bool.false_eq_true, false_iff]
      rintro ⟨j, hj, hn, hall⟩
      have hjk : j ≠ k := by
        intro h
        subst h
        rw [hek, hcase] at hn
        cases hn
      exact hall k (by omega) (Nat.lt_succ_self k) (by rw [hek, hcase])

/-- Updates are paid for by notifications, or by the flag being set at the start. -/
theorem updates_count_le (flag : Bool) (es : List Event) :
    (updates flag es).count true
      ≤ es.count Event.notification + (if flag = true then 1 else 0) := by
  induction es generalizing flag with
  | nil => simp [updates]
  | cons e es ih =>
    cases e with
    | notification =>
      have := ih true
      simp only [updates, step_notification, List.count_cons, beq_self_eq_true, if_true]
      simp at this ⊢
      split_ifs <;> omega
    | tick =>
      have := ih false
      simp only [updates, step_tick, List.count_cons]
      simp at this ⊢
      cases flag <;> omega

end Lemmas

/-! ## The claims -/

section Claims

variable {α : Type} [LinearOrderedField α] {κ : Type}

/-- C9: what `paint` accumulates. The linear magnitude of a pixel is the peak
factor (1 when Peak is bypassed) times the product of the LOW cut stage
magnitudes over the low cut stages that are not bypassed, times the product of
the LOW cut stage magnitudes over the HIGH cut stages that are not bypassed.
Hence two chains that agree on everything but the coefficients of the high cut
stages have the same magnitude at every pixel and the same response, and a chain
with all eight stages active yields the peak factor times the square of the
product of the four low cut magnitudes. -/
theorem paint_highCut_factor_reads_lowCut (log10 pow10 : α → α) (M : κ → α → α → α)
    (c : MonoChain κ) (f sr : α) :
    pixelMag M c f sr
        = (if c.isBypassed ChainPositions.Peak then 1 else M c.peak.coefficients f sr)
          * (∏ k : Fin 4, if c.lowCut.isBypassed k then 1
              else M (c.lowCut.get k).coefficients f sr)
          * (∏ k : Fin 4, if c.highCut.isBypassed k then 1
              else M (c.lowCut.get k).coefficients f sr)
    ∧ (∀ c2 : MonoChain κ, c2.lowCut = c.lowCut → c2.peak = c.peak →
          c2.isBypassed = c.isBypassed → c2.highCut.isBypassed = c.highCut.isBypassed →
          pixelMag M c2 f sr = pixelMag M c f sr
          ∧ ∀ w : Nat, computeMags log10 pow10 M c2 sr w = computeMags log10 pow10 M c sr w)
    ∧ ((∀ k, c.lowCut.isBypassed k = false) → (∀ k, c.highCut.isBypassed k = false) →
          pixelMag M c f sr
            = (if c.isBypassed ChainPositions.Peak then 1 else M c.peak.coefficients f sr)
              * (M (c.lowCut.get 0).coefficients f sr * M (c.lowCut.get 1).coefficients f sr
                * M (c.lowCut.get 2).coefficients f sr
                * M (c.lowCut.get 3).coefficients f sr) ^ 2) := by
  refine ⟨pixelMag_eq_prod M c f sr, ?_, ?_⟩
  · intro c2 hl hp hb hh
    have key : ∀ g : α, pixelMag M c2 g sr = pixelMag M c g sr := by
      intro g
      rw [pixelMag_eq_prod, pixelMag_eq_prod, hl, hp, hb, hh]
    refine ⟨key f, ?_⟩
    intro w
    rw [computeMags_eq_map, computeMags_eq_map]
    apply List.map_congr_left
    intro i _
    simp only [pixelDb, key]
  · intro hl hh
    rw [pixelMag_eq_prod]
    simp only [hl, hh, Fin.prod_univ_four, Bool.false_eq_true, if_false]
    ring

/-- Witness of C9 on pure gain chains over the rationals: the chains
`allActiveChain 13` and `allActiveChain 17` differ in their high cut
coefficients only. -/
theorem paint_highCut_factor_reads_lowCut_witness :
    ((allActiveChain (17 : ℚ)).lowCut = (allActiveChain (13 : ℚ)).lowCut
      ∧ (allActiveChain (17 : ℚ)).peak = (allActiveChain (13 : ℚ)).peak
      ∧ (allActiveChain (17 : ℚ)).isBypassed = (allActiveChain (13 : ℚ)).isBypassed
      ∧ (allActiveChain (17 : ℚ)).highCut.isBypassed
          = (allActiveChain (13 : ℚ)).highCut.isBypassed)
    ∧ (pixelMag gainMagnitude (allActiveChain (17 : ℚ)) 1000 44100
          = pixelMag gainMagnitude (allActiveChain (13 : ℚ)) 1000 44100
        ∧ ∀ w : Nat, computeMags id id gainMagnitude (allActiveChain (17 : ℚ)) 44100 w
            = computeMags id id gainMagnitude (allActiveChain (13 : ℚ)) 44100 w)
    ∧ ((∀ k, (allActiveChain (13 : ℚ)).lowCut.isBypassed k = false)
      ∧ (∀ k, (allActiveChain (13 : ℚ)).highCut.isBypassed k = false))
    ∧ pixelMag gainMagnitude (allActiveChain (13 : ℚ)) 1000 44100
        = 2 * (3 * 5 * 7 * 11) ^ 2 :=
  ⟨⟨rfl, rfl, rfl, rfl⟩,
    (paint_highCut_factor_reads_lowCut id id gainMagnitude (allActiveChain (13 : ℚ))
      1000 44100).2.1 (allActiveChain (17 : ℚ)) rfl rfl rfl rfl,
    ⟨fun _ => rfl, fun _ => rfl⟩,
    ((paint_highCut_factor_reads_lowCut id id gainMagnitude (allActiveChain (13 : ℚ))
      1000 44100).2.2 (fun _ => rfl) (fun _ => rfl)).trans
      (by simp [allActiveChain, gainChain, gainMagnitude])⟩

/-- C1: at the chain `highCutOnlyChain` (only high cut stage 0 active, with gain
2, while low cut stage 0 holds gain 3 and is bypassed) the loop body of `paint`
accumulates 3, the magnitude of LOW cut stage 0, whereas the composition of each
cascade from its own stages gives 2. -/
theorem paint_highCut_composition_diverges :
    pixelMag gainMagnitude (highCutOnlyChain : MonoChain ℚ) 1000 44100 = 3
    ∧ compositeMagnitudeSpec gainMagnitude (highCutOnlyChain : MonoChain ℚ) 1000 44100 = 2 := by
  constructor
  · simp [pixelMag_eq_prod, Fin.prod_univ_four, highCutOnlyChain, gainChain, gainMagnitude]
  · simp [compositeMagnitudeSpec, cascadeMagnitudeSpec, Fin.prod_univ_four, highCutOnlyChain,
      gainChain, gainMagnitude]

/-- C2, as stated, fails for LowCut: the chain `lowCutPositionBypassedChain` has
LowCut marked bypassed at the position level, yet its active stage 0 (gain 10)
is still multiplied in: `paint` stores 20 dB where the chain without LowCut
gives 0 dB. -/
theorem position_bypass_lowCut_not_honoured :
    (lowCutPositionBypassedChain : MonoChain ℝ).isBypassed ChainPositions.LowCut = true
    ∧ pixelDb (Real.logb 10) gainMagnitude (lowCutPositionBypassedChain : MonoChain ℝ)
        1000 44100 = 20
    ∧ compositeDbWithoutSpec (Real.logb 10) gainMagnitude ChainPositions.LowCut
        (lowCutPositionBypassedChain : MonoChain ℝ) 1000 44100 = 0
    ∧ pixelDb (Real.logb 10) gainMagnitude (lowCutPositionBypassedChain : MonoChain ℝ)
        1000 44100
      ≠ compositeDbWithoutSpec (Real.logb 10) gainMagnitude ChainPositions.LowCut
        (lowCutPositionBypassedChain : MonoChain ℝ) 1000 44100 := by
  have h1 : pixelDb (Real.logb 10) gainMagnitude (lowCutPositionBypassedChain : MonoChain ℝ)
      1000 44100 = 20 := by
    have h10 : Real.logb 10 10 = 1 := Real.logb_self_eq_one (by norm_num)
    simp [pixelDb, pixelMag_eq_prod, Fin.prod_univ_four, lowCutPositionBypassedChain,
      gainChain, gainMagnitude, gainToDecibels, defaultMinusInfinitydB, h10]
    norm_num
  have h2 : compositeDbWithoutSpec (Real.logb 10) gainMagnitude ChainPositions.LowCut
      (lowCutPositionBypassedChain : MonoChain ℝ) 1000 44100 = 0 := by
    simp [compositeDbWithoutSpec, compositeMagnitudeWithoutSpec, cascadeMagnitudeSpec,
      Fin.prod_univ_four, lowCutPositionBypassedChain, gainChain, gainToDecibels,
      defaultMinusInfinitydB]
  refine ⟨rfl, h1, h2, ?_⟩
  rw [h1, h2]
  norm_num

/-- C2, amended. The chain without a position is the composite of the
specification with the factor of that position replaced by 1
(`compositeDbWithoutSpec`), and the condition
`highCutBlock M c f sr 1 = cascadeMagnitudeSpec M c.highCut f sr` restricts to
the chain states and pixels at which the high cut block of `paint` multiplies in
the composite of the high cut stages themselves. Then: with Peak marked bypassed
at the chain level the stored value does not depend on the coefficients of Peak
and, under that condition, is the value of the chain without Peak; the
position-level flags of LowCut and HighCut are not read, the stored value is the
same whatever they are; with the four low cut stage flags set the stored value
is, under that condition, the value of the chain without LowCut; with the four
high cut stage flags set it is the value of the chain without HighCut. -/
theorem position_bypass_as_painted (log10 : α → α) (M : κ → α → α → α)
    (c : MonoChain κ) (f sr : α) :
    (c.isBypassed ChainPositions.Peak = true →
        (∀ coefficients : κ,
          pixelDb log10 M { c with peak := { coefficients := coefficients } } f sr
            = pixelDb log10 M c f sr)
        ∧ (highCutBlock M c f sr 1 = cascadeMagnitudeSpec M c.highCut f sr →
            pixelDb log10 M c f sr
              = compositeDbWithoutSpec log10 M ChainPositions.Peak c f sr))
    ∧ (∀ b : ChainPositions → Bool, b ChainPositions.Peak = c.isBypassed ChainPositions.Peak →
        pixelDb log10 M { c with isBypassed := b } f sr = pixelDb log10 M c f sr)
    ∧ ((∀ k, c.lowCut.isBypassed k = true) →
        highCutBlock M c f sr 1 = cascadeMagnitudeSpec M c.highCut f sr →
        pixelDb log10 M c f sr = compositeDbWithoutSpec log10 M ChainPositions.LowCut c f sr)
    ∧ ((∀ k, c.highCut.isBypassed k = true) →
        pixelDb log10 M c f sr
          = compositeDbWithoutSpec log10 M ChainPositions.HighCut c f sr) := by
  refine ⟨?_, ?_, ?_, ?_⟩
  · intro h
    constructor
    · intro coefficients
      simp [pixelDb, pixelMag_eq_prod, h]
    · intro hown
      rw [pixelDb, pixelMag_eq_spec_of_highCut_own M c f sr hown]
      simp [compositeDbWithoutSpec, compositeMagnitudeWithoutSpec, compositeMagnitudeSpec, h]
  · intro b hb
    simp [pixelDb, pixelMag_eq_prod, hb]
  · intro h hown
    rw [pixelDb, pixelMag_eq_spec_of_highCut_own M c f sr hown]
    simp [compositeDbWithoutSpec, compositeMagnitudeWithoutSpec, compositeMagnitudeSpec,
      cascadeMagnitudeSpec_all_bypassed M c.lowCut f sr h]
  · intro h
    have hown : highCutBlock M c f sr 1 = cascadeMagnitudeSpec M c.highCut f sr := by
      rw [highCutBlock_one_eq_prod, cascadeMagnitudeSpec_all_bypassed M c.highCut f sr h]
      simp [h]
    rw [pixelDb, pixelMag_eq_spec_of_highCut_own M c f sr hown]
    simp [compositeDbWithoutSpec, compositeMagnitudeWithoutSpec, compositeMagnitudeSpec,
      cascadeMagnitudeSpec_all_bypassed M c.highCut f sr h]

/-- Witness of the amended C2 over the reals: `matchedCutsChain` (Peak bypassed,
the four low cut stages bypassed, high cut stage 0 active with the gain held by
low cut stage 0) for Peak and LowCut, and `unityChain` (the four high cut
stages bypassed) for HighCut. -/
theorem position_bypass_as_painted_witness :
    (((matchedCutsChain : MonoChain ℝ).isBypassed ChainPositions.Peak = true
        ∧ highCutBlock gainMagnitude (matchedCutsChain : MonoChain ℝ) 1000 44100 1
          = cascadeMagnitudeSpec gainMagnitude (matchedCutsChain : MonoChain ℝ).highCut
              1000 44100)
      ∧ pixelDb (Real.logb 10) gainMagnitude (matchedCutsChain : MonoChain ℝ) 1000 44100
        = compositeDbWithoutSpec (Real.logb 10) gainMagnitude ChainPositions.Peak
            (matchedCutsChain : MonoChain ℝ) 1000 44100)
    ∧ ((∀ k, (matchedCutsChain : MonoChain ℝ).lowCut.isBypassed k = true)
      ∧ pixelDb (Real.logb 10) gainMagnitude (matchedCutsChain : MonoChain ℝ) 1000 44100
        = compositeDbWithoutSpec (Real.logb 10) gainMagnitude ChainPositions.LowCut
            (matchedCutsChain : MonoChain ℝ) 1000 44100)
    ∧ ((∀ k, (unityChain : MonoChain ℝ).highCut.isBypassed k = true)
      ∧ pixelDb (Real.logb 10) gainMagnitude (unityChain : MonoChain ℝ) 1000 44100
        = compositeDbWithoutSpec (Real.logb 10) gainMagnitude ChainPositions.HighCut
            (unityChain : MonoChain ℝ) 1000 44100) :=
  have hown : highCutBlock gainMagnitude (matchedCutsChain : MonoChain ℝ) 1000 44100 1
      = cascadeMagnitudeSpec gainMagnitude (matchedCutsChain : MonoChain ℝ).highCut
          1000 44100 := by
    simp [highCutBlock_one_eq_prod, cascadeMagnitudeSpec, Fin.prod_univ_four,
      matchedCutsChain, gainChain, gainMagnitude]
  ⟨⟨⟨rfl, hown⟩, ((position_bypass_as_painted (Real.logb 10) gainMagnitude
      (matchedCutsChain : MonoChain ℝ) 1000 44100).1 rfl).2 hown⟩,
    ⟨fun _ => rfl, (position_bypass_as_painted (Real.logb 10) gainMagnitude
      (matchedCutsChain : MonoChain ℝ) 1000 44100).2.2.1 (fun _ => rfl) hown⟩,
    ⟨fun _ => rfl, (position_bypass_as_painted (Real.logb 10) gainMagnitude
      (unityChain : MonoChain ℝ) 1000 44100).2.2.2 (fun _ => rfl)⟩⟩

/-- C3: unity chain. Over the reals, for every width `w ≥ 1`, every sample rate
and all coefficients, when the four low cut stages and the four high cut stages
are bypassed and the peak magnitude is 1 at every frequency, or Peak is
bypassed, the response has `w` entries and every one of them is exactly 0 dB. -/
theorem unity_chain_response_is_zero_dB (M : κ → ℝ → ℝ → ℝ) (c : MonoChain κ)
    (sr : ℝ) (w : Nat) (hw : 1 ≤ w)
    (hlow : ∀ k, c.lowCut.isBypassed k = true)
    (hhigh : ∀ k, c.highCut.isBypassed k = true)
    (hpeak : (∀ f, M c.peak.coefficients f sr = 1) ∨ c.isBypassed ChainPositions.Peak = true) :
    (computeMags (Real.logb 10) (fun x => (10 : ℝ) ^ x) M c sr w).length = w
    ∧ (∀ i, i < w →
        (computeMags (Real.logb 10) (fun x => (10 : ℝ) ^ x) M c sr w)[i]? = some 0)
    ∧ computeMags (Real.logb 10) (fun x => (10 : ℝ) ^ x) M c sr w ≠ [] := by
  have hmag : ∀ f, pixelMag M c f sr = 1 := by
    intro f
    rw [pixelMag_eq_prod]
    rcases hpeak with hp | hp
    · simp [hlow, hhigh, hp f]
    · simp [hlow, hhigh, hp]
  refine ⟨computeMags_length _ _ M c sr w, ?_, ?_⟩
  · intro i hi
    rw [computeMags_getElem? _ _ M c sr w i hi, pixelDb, hmag, gainToDecibels_one]
  · intro h
    have := computeMags_length (Real.logb 10) (fun x => (10 : ℝ) ^ x) M c sr w
    rw [h] at this
    simp at this
    omega

/-- Witness of C3: the chain `unityChain` at 44100 Hz and a width of 200 pixels. -/
theorem unity_chain_response_is_zero_dB_witness :
    (1 ≤ 200
      ∧ (∀ k, (unityChain : MonoChain ℝ).lowCut.isBypassed k = true)
      ∧ (∀ k, (unityChain : MonoChain ℝ).highCut.isBypassed k = true)
      ∧ (∀ f : ℝ, gainMagnitude (unityChain : MonoChain ℝ).peak.coefficients f 44100 = 1))
    ∧ (computeMags (Real.logb 10) (fun x => (10 : ℝ) ^ x) gainMagnitude
        (unityChain : MonoChain ℝ) 44100 200).length = 200
    ∧ (∀ i, i < 200 →
        (computeMags (Real.logb 10) (fun x => (10 : ℝ) ^ x) gainMagnitude
          (unityChain : MonoChain ℝ) 44100 200)[i]? = some 0) :=
  have hp : ∀ f : ℝ, gainMagnitude (unityChain : MonoChain ℝ).peak.coefficients f 44100 = 1 :=
    fun _ => by simp [unityChain, gainChain, gainMagnitude]
  ⟨⟨by decide, fun _ => rfl, fun _ => rfl, hp⟩,
    (unity_chain_response_is_zero_dB gainMagnitude (unityChain : MonoChain ℝ) 44100 200
      (by decide) (fun _ => rfl) (fun _ => rfl) (Or.inl hp)).1,
    (unity_chain_response_is_zero_dB gainMagnitude (unityChain : MonoChain ℝ) 44100 200
      (by decide) (fun _ => rfl) (fun _ => rfl) (Or.inl hp)).2.1⟩

/-- C4: at the chain `highCutOnlyChain`, width 4 and 44100 Hz, over the reals,
`paint` fills the four entries of the response with the decibel value of the
magnitude 3, whereas the sampled response of the specification holds the
decibel value of the composite magnitude 2 of the chain in each of them; the
two differ in every entry. -/
theorem computeMags_not_composite_response :
    computeMags (Real.logb 10) (fun x => (10 : ℝ) ^ x) gainMagnitude
        (highCutOnlyChain : MonoChain ℝ) 44100 4
      = [20 * Real.logb 10 3, 20 * Real.logb 10 3, 20 * Real.logb 10 3, 20 * Real.logb 10 3]
    ∧ sampleResponseSpec (Real.logb 10) (fun x => (10 : ℝ) ^ x) gainMagnitude
        (highCutOnlyChain : MonoChain ℝ) 44100 4
      = [20 * Real.logb 10 2, 20 * Real.logb 10 2, 20 * Real.logb 10 2, 20 * Real.logb 10 2]
    ∧ 20 * Real.logb 10 2 < 20 * Real.logb 10 3 := by
  have he : (10 : ℝ) ^ (-5 : ℝ) ≤ 1 :=
    Real.rpow_le_one_of_one_le_of_nonpos (by norm_num) (by norm_num)
  have h3 : gainToDecibels (Real.logb 10) (3 : ℝ) = 20 * Real.logb 10 3 := by
    rw [gainToDecibels_eq_clamped, max_eq_left (by linarith)]
  have h2 : gainToDecibels (Real.logb 10) (2 : ℝ) = 20 * Real.logb 10 2 := by
    rw [gainToDecibels_eq_clamped, max_eq_left (by linarith)]
  have hcode : ∀ f : ℝ,
      pixelMag gainMagnitude (highCutOnlyChain : MonoChain ℝ) f 44100 = 3 := by
    intro f
    simp [pixelMag_eq_prod, Fin.prod_univ_four, highCutOnlyChain, gainChain, gainMagnitude]
  have hspec : ∀ f : ℝ,
      compositeMagnitudeSpec gainMagnitude (highCutOnlyChain : MonoChain ℝ) f 44100 = 2 := by
    intro f
    simp [compositeMagnitudeSpec, cascadeMagnitudeSpec, Fin.prod_univ_four, highCutOnlyChain,
      gainChain, gainMagnitude]
  have hrange : List.range 4 = [0, 1, 2, 3] := rfl
  refine ⟨?_, ?_, ?_⟩
  · rw [computeMags_eq_map, hrange]
    simp only [List.map_cons, List.map_nil, pixelDb, hcode, h3]
  · unfold sampleResponseSpec
    rw [hrange]
    simp only [List.map_cons, List.map_nil, hspec, h2]
  · have := Real.logb_lt_logb (show (1 : ℝ) < 10 by norm_num) (show (0 : ℝ) < 2 by norm_num)
      (show (2 : ℝ) < 3 by norm_num)
    linarith

/-- C5: over the reals the frequency mapper of `paint` is `t ↦ 20 * 1000 ^ t`
(for every real `t`, in particular on `[0, 1]`), it is exactly 20 at `t = 0`
and exactly 20000 at `t = 1`, and it is strictly increasing. -/
theorem mapToLog10_is_strictly_increasing_exponential :
    (∀ t : ℝ, mapToLog10 (Real.logb 10) (fun x => (10 : ℝ) ^ x) t 20 20000
        = 20 * (1000 : ℝ) ^ t)
    ∧ mapToLog10 (Real.logb 10) (fun x => (10 : ℝ) ^ x) 0 20 20000 = 20
    ∧ mapToLog10 (Real.logb 10) (fun x => (10 : ℝ) ^ x) 1 20 20000 = 20000
    ∧ (∀ t1 t2 : ℝ, t1 < t2 →
        mapToLog10 (Real.logb 10) (fun x => (10 : ℝ) ^ x) t1 20 20000
          < mapToLog10 (Real.logb 10) (fun x => (10 : ℝ) ^ x) t2 20 20000) := by
  refine ⟨mapToLog10_closed_form, ?_, ?_, ?_⟩
  · rw [mapToLog10_closed_form]
    norm_num
  · rw [mapToLog10_closed_form]
    norm_num
  · intro t1 t2 h
    rw [mapToLog10_closed_form, mapToLog10_closed_form]
    have := Real.rpow_lt_rpow_of_exponent_lt (show (1 : ℝ) < 1000 by norm_num) h
    linarith

/-- Witness of C5: the pixel at one quarter lies below the pixel at one half. -/
theorem mapToLog10_is_strictly_increasing_exponential_witness :
    ((1 : ℝ) / 4 < 1 / 2)
    ∧ mapToLog10 (Real.logb 10) (fun x => (10 : ℝ) ^ x) (1 / 4) 20 20000
        < mapToLog10 (Real.logb 10) (fun x => (10 : ℝ) ^ x) (1 / 2) 20 20000 :=
  ⟨by norm_num,
    mapToLog10_is_strictly_increasing_exponential.2.2.2 (1 / 4) (1 / 2) (by norm_num)⟩

/-- C6: degenerate magnitudes. Over the reals, with the positive epsilon
`10 ^ (-5)`, the decibel value stored for any linear magnitude `m`, zero and
negative values included, is `20 * log10 (max m epsilon)`; it is at least -100;
it is exactly `20 * log10 m` for `m ≥ epsilon`; a zero magnitude gives exactly
-100; and every entry of the response is at least -100. -/
theorem gainToDecibels_clamps_at_epsilon :
    (0 : ℝ) < (10 : ℝ) ^ (-5 : ℝ)
    ∧ (∀ m : ℝ,
        gainToDecibels (Real.logb 10) m
            = 20 * Real.logb 10 (max m ((10 : ℝ) ^ (-5 : ℝ)))
        ∧ -100 ≤ gainToDecibels (Real.logb 10) m
        ∧ ((10 : ℝ) ^ (-5 : ℝ) ≤ m →
            gainToDecibels (Real.logb 10) m = 20 * Real.logb 10 m))
    ∧ gainToDecibels (Real.logb 10) (0 : ℝ) = -100
    ∧ (∀ (κ : Type) (M : κ → ℝ → ℝ → ℝ) (c : MonoChain κ) (sr : ℝ) (w : Nat),
        ∀ x ∈ computeMags (Real.logb 10) (fun x => (10 : ℝ) ^ x) M c sr w, -100 ≤ x) := by
  refine ⟨epsilon_pos, ?_, ?_, ?_⟩
  · intro m
    refine ⟨gainToDecibels_eq_clamped m, gainToDecibels_ge_floor _ m, ?_⟩
    intro h
    rw [gainToDecibels_eq_clamped, max_eq_left h]
  · simp [gainToDecibels, defaultMinusInfinitydB]
  · intro κ M c sr w x hx
    rw [computeMags_eq_map] at hx
    obtain ⟨i, _, rfl⟩ := List.mem_map.1 hx
    exact gainToDecibels_ge_floor _ _

/-- Witness of C6: a unit magnitude is above the epsilon and is stored as
`20 * log10 1`; the response of `allActiveChain 13` of width 3 is bounded below. -/
theorem gainToDecibels_clamps_at_epsilon_witness :
    ((10 : ℝ) ^ (-5 : ℝ) ≤ 1
      ∧ gainToDecibels (Real.logb 10) (1 : ℝ) = 20 * Real.logb 10 1)
    ∧ (pixelDb (Real.logb 10) gainMagnitude (allActiveChain (13 : ℝ))
          (pixelFreq (Real.logb 10) (fun x => (10 : ℝ) ^ x) 0 3) 44100
        ∈ computeMags (Real.logb 10) (fun x => (10 : ℝ) ^ x) gainMagnitude
            (allActiveChain (13 : ℝ)) 44100 3
      ∧ -100 ≤ pixelDb (Real.logb 10) gainMagnitude (allActiveChain (13 : ℝ))
          (pixelFreq (Real.logb 10) (fun x => (10 : ℝ) ^ x) 0 3) 44100) :=
  have he : (10 : ℝ) ^ (-5 : ℝ) ≤ 1 :=
    Real.rpow_le_one_of_one_le_of_nonpos (by norm_num) (by norm_num)
  have hmem : pixelDb (Real.logb 10) gainMagnitude (allActiveChain (13 : ℝ))
        (pixelFreq (Real.logb 10) (fun x => (10 : ℝ) ^ x) 0 3) 44100
      ∈ computeMags (Real.logb 10) (fun x => (10 : ℝ) ^ x) gainMagnitude
          (allActiveChain (13 : ℝ)) 44100 3 := by
    rw [computeMags_eq_map]
    exact List.mem_map.2 ⟨0, by simp, rfl⟩
  ⟨⟨he, (gainToDecibels_clamps_at_epsilon.2.1 1).2.2 he⟩,
    ⟨hmem, gainToDecibels_clamps_at_epsilon.2.2.2 ℝ gainMagnitude (allActiveChain (13 : ℝ))
      44100 3 _ hmem⟩⟩

/-- C7, as stated, fails on a response area of height zero: with
`areaBottom = areaTop = 0` the floor of -100 dB, which lies outside
`[-24, 24]`, is mapped to 0, inside the interval between the two. -/
theorem map_degenerate_area_not_outside :
    (-100 : ℚ) < -24
    ∧ map (0 : ℚ) 0 (-100) = 0
    ∧ ¬ (map (0 : ℚ) 0 (-100) < min 0 0 ∨ max 0 0 < map (0 : ℚ) 0 (-100)) := by
  have h : map (0 : ℚ) 0 (-100) = 0 := by
    rw [map_closed_form]
    norm_num
  refine ⟨by norm_num, h, ?_⟩
  rw [h]
  simp

/-- C7, amended: the vertical mapper is the affine function
`areaBottom + (areaTop - areaBottom) * (dB + 24) / 48`; it sends -24 to
`areaBottom`, 24 to `areaTop` and 0 to their midpoint; it is strictly
decreasing when `areaBottom > areaTop`; it does not clamp: when
`areaBottom ≠ areaTop`, every `dB` outside `[-24, 24]` is mapped strictly outside
the interval between `areaTop` and `areaBottom`; and -100 is mapped to
`areaBottom + (areaBottom - areaTop) * 19 / 12`. Here `outputMin` is
`areaBottom` and `outputMax` is `areaTop`. -/
theorem map_affine_unclamped (outputMin outputMax : α) :
    (∀ dB : α, map outputMin outputMax dB
        = outputMin + (outputMax - outputMin) * (dB + 24) / 48)
    ∧ map outputMin outputMax (-24) = outputMin
    ∧ map outputMin outputMax 24 = outputMax
    ∧ map outputMin outputMax 0 = (outputMin + outputMax) / 2
    ∧ (outputMin > outputMax →
        ∀ d1 d2 : α, d1 < d2 → map outputMin outputMax d2 < map outputMin outputMax d1)
    ∧ (outputMin ≠ outputMax →
        ∀ dB : α, dB < -24 ∨ 24 < dB →
          map outputMin outputMax dB < min outputMin outputMax
          ∨ max outputMin outputMax < map outputMin outputMax dB)
    ∧ map outputMin outputMax (-100) = outputMin + (outputMin - outputMax) * 19 / 12 := by
  refine ⟨map_closed_form outputMin outputMax, ?_, ?_, ?_, ?_, ?_, ?_⟩
  · rw [map_closed_form]
    ring
  · rw [map_closed_form]
    ring
  · rw [map_closed_form]
    ring
  · intro h d1 d2 hd
    rw [map_closed_form, map_closed_form]
    have h1 : outputMax - outputMin < 0 := by linarith
    have h2 : (outputMax - outputMin) * (d2 + 24) < (outputMax - outputMin) * (d1 + 24) :=
      mul_lt_mul_of_neg_left (by linarith) h1
    have h3 : (outputMax - outputMin) * (d2 + 24) / 48
        < (outputMax - outputMin) * (d1 + 24) / 48 :=
      div_lt_div_of_pos_right h2 (by norm_num)
    linarith
  · intro hne dB hdB
    rw [map_closed_form]
    rcases lt_or_gt_of_ne hne with hlt | hgt
    · rw [min_eq_left (le_of_lt hlt), max_eq_right (le_of_lt hlt)]
      have hpos : 0 < outputMax - outputMin := by linarith
      rcases hdB with hd | hd
      · left
        have : (outputMax - outputMin) * (dB + 24) < 0 :=
          mul_neg_of_pos_of_neg hpos (by linarith)
        have : (outputMax - outputMin) * (dB + 24) / 48 < 0 :=
          div_neg_of_neg_of_pos this (by norm_num)
        linarith
      · right
        have h1 : (outputMax - outputMin) * 48 < (outputMax - outputMin) * (dB + 24) :=
          mul_lt_mul_of_pos_left (by linarith) hpos
        have h2 : (outputMax - outputMin) * 48 / 48
            < (outputMax - outputMin) * (dB + 24) / 48 :=
          div_lt_div_of_pos_right h1 (by norm_num)
        have h3 : (outputMax - outputMin) * 48 / 48 = outputMax - outputMin := by
          field_simp
        linarith
    · rw [min_eq_right (le_of_lt hgt), max_eq_left (le_of_lt hgt)]
      have hneg : outputMax - outputMin < 0 := by linarith
      rcases hdB with hd | hd
      · right
        have : 0 < (outputMax - outputMin) * (dB + 24) :=
          mul_pos_of_neg_of_neg hneg (by linarith)
        have : 0 < (outputMax - outputMin) * (dB + 24) / 48 :=
          div_pos this (by norm_num)
        linarith
      · left
        have h1 : (outputMax - outputMin) * (dB + 24) < (outputMax - outputMin) * 48 :=
          mul_lt_mul_of_neg_left (by linarith) hneg
        have h2 : (outputMax - outputMin) * (dB + 24) / 48
            < (outputMax - outputMin) * 48 / 48 :=
          div_lt_div_of_pos_right h1 (by norm_num)
        have h3 : (outputMax - outputMin) * 48 / 48 = outputMax - outputMin := by
          field_simp
        linarith
  · rw [map_closed_form]
    ring

/-- Witness of the amended C7: a response area with top 0 and bottom 133. -/
theorem map_affine_unclamped_witness :
    (((133 : ℚ) > 0 ∧ (-30 : ℚ) < 30)
      ∧ map (133 : ℚ) 0 30 < map (133 : ℚ) 0 (-30))
    ∧ (((133 : ℚ) ≠ 0 ∧ ((-100 : ℚ) < -24 ∨ (24 : ℚ) < -100))
      ∧ (map (133 : ℚ) 0 (-100) < min 133 0 ∨ max 133 0 < map (133 : ℚ) 0 (-100))) :=
  ⟨⟨⟨by norm_num, by norm_num⟩,
      (map_affine_unclamped (133 : ℚ) 0).2.2.2.2.1 (by norm_num) (-30) 30 (by norm_num)⟩,
    ⟨⟨by norm_num, Or.inl (by norm_num)⟩,
      (map_affine_unclamped (133 : ℚ) 0).2.2.2.2.2.1 (by norm_num) (-100)
        (Or.inl (by norm_num))⟩⟩

/-- C8: change detection. For every finite sequence of notifications and ticks
started with the flag clear: a tick enters the update branch exactly when a
notification occurred since the previous tick (or since the start); the flag is
clear after every tick; the number of update cycles is at most the number of
notifications; and of two ticks with no notification between them at most one
updates. -/
theorem change_detection_once_per_change (es : List Event) :
    (∀ k : Nat, es[k]? = some Event.tick →
        ((updates false es)[k]? = some true
          ↔ ∃ j : Nat, j < k ∧ es[j]? = some Event.notification
              ∧ ∀ m : Nat, j < m → m < k → es[m]? ≠ some Event.tick))
    ∧ (∀ k : Nat, es[k]? = some Event.tick → flagAfter false (es.take (k + 1)) = false)
    ∧ (updates false es).count true ≤ es.count Event.notification
    ∧ (∀ k1 k2 : Nat, k1 < k2 → es[k1]? = some Event.tick → es[k2]? = some Event.tick →
        (∀ m : Nat, k1 < m → m < k2 → es[m]? ≠ some Event.notification) →
        ¬ ((updates false es)[k1]? = some true ∧ (updates false es)[k2]? = some true)) := by
  have hlen : ∀ (k : Nat) (e : Event), es[k]? = some e → k ≤ es.length := by
    intro k e h
    have := (List.getElem?_eq_some_iff.1 h).1
    omega
  have hupd : ∀ k : Nat, es[k]? = some Event.tick →
      ((updates false es)[k]? = some true
        ↔ ∃ j : Nat, j < k ∧ es[j]? = some Event.notification
            ∧ ∀ m : Nat, j < m → m < k → es[m]? ≠ some Event.tick) := by
    intro k hk
    rw [updates_getElem?, hk, ← flagAfter_take_iff es k (hlen k _ hk)]
    simp [step_tick]
  refine ⟨hupd, ?_, ?_, ?_⟩
  · intro k hk
    rw [flagAfter_take_succ false es k Event.tick hk, step_tick]
  · have := updates_count_le false es
    simpa using this
  · intro k1 k2 hlt h1 h2 hno hboth
    obtain ⟨j, hj, hn, hall⟩ := (hupd k2 h2).1 hboth.2
    rcases Nat.lt_trichotomy j k1 with hjk | hjk | hjk
    · exact hall k1 hjk hlt h1
    · subst hjk
      rw [h1] at hn
      cases hn
    · exact hno j hjk hj hn

/-- Witness of C8 on the sequence notification, notification, tick, tick,
notification, tick: the ticks at positions 2 and 5 update, the tick at
position 3 does not, and three notifications pay for two updates. -/
theorem change_detection_once_per_change_witness :
    ([Event.notification, Event.notification, Event.tick, Event.tick, Event.notification,
        Event.tick][3]? = some Event.tick
      ∧ flagAfter false
          ([Event.notification, Event.notification, Event.tick, Event.tick,
            Event.notification, Event.tick].take (3 + 1)) = false)
    ∧ ((2 < 3
        ∧ [Event.notification, Event.notification, Event.tick, Event.tick,
            Event.notification, Event.tick][2]? = some Event.tick
        ∧ [Event.notification, Event.notification, Event.tick, Event.tick,
            Event.notification, Event.tick][3]? = some Event.tick
        ∧ ∀ m : Nat, 2 < m → m < 3 →
            [Event.notification, Event.notification, Event.tick, Event.tick,
              Event.notification, Event.tick][m]? ≠ some Event.notification)
      ∧ ¬ ((updates false [Event.notification, Event.notification, Event.tick, Event.tick,
              Event.notification, Event.tick])[2]? = some true
          ∧ (updates false [Event.notification, Event.notification, Event.tick, Event.tick,
              Event.notification, Event.tick])[3]? = some true))
    ∧ updates false [Event.notification, Event.notification, Event.tick, Event.tick,
        Event.notification, Event.tick] = [false, false, true, false, false, true] :=
  ⟨⟨rfl, (change_detection_once_per_change [Event.notification, Event.notification,
        Event.tick, Event.tick, Event.notification, Event.tick]).2.1 3 rfl⟩,
    ⟨⟨by decide, rfl, rfl, fun m h1 h2 => absurd h2 (by omega)⟩,
      (change_detection_once_per_change [Event.notification, Event.notification,
        Event.tick, Event.tick, Event.notification, Event.tick]).2.2.2 2 3 (by decide)
        rfl rfl (fun m h1 h2 => absurd h2 (by omega))⟩,
    rfl⟩

/-- C10: index safety of the curve. For every width `w ≥ 1` the access to the
first element and every element access of the polyline loop succeed, and the
path receives exactly `w` points, the one of index `i` at `x = getX + i` and
`y = map (mags[i])`, with `x` strictly increasing; for `w = 0` the vector is
empty, the first element access has no element and no curve is produced. -/
theorem paint_curve_index_safety (log10 pow10 : α → α) (M : κ → α → α → α)
    (c : MonoChain κ) (sr : α) (getX : Int) (outputMin outputMax : α) (w : Nat) :
    (1 ≤ w →
      (computeMags log10 pow10 M c sr w).head? ≠ none
      ∧ (∀ i, 1 ≤ i → i < (computeMags log10 pow10 M c sr w).length →
          (computeMags log10 pow10 M c sr w)[i]? ≠ none)
      ∧ ∃ pts, paint log10 pow10 M c sr getX outputMin outputMax w = some pts
          ∧ pts.length = w
          ∧ (∀ i, i < w → ∃ m, (computeMags log10 pow10 M c sr w)[i]? = some m
              ∧ pts[i]? = some (getX + (i : Int), map outputMin outputMax m))
          ∧ (∀ (i j : Nat) (p q : Int × α), i < j → pts[i]? = some p → pts[j]? = some q →
              p.1 < q.1))
    ∧ (w = 0 →
      computeMags log10 pow10 M c sr w = []
      ∧ (computeMags log10 pow10 M c sr w).head? = none
      ∧ paint log10 pow10 M c sr getX outputMin outputMax w = none) := by
  constructor
  · intro hw
    obtain ⟨n, rfl⟩ : ∃ n, w = n + 1 := ⟨w - 1, by omega⟩
    have hget := computeMags_getElem? log10 pow10 M c sr (n + 1)
    have hpt : ∀ i, i < n + 1 →
        ((List.range (n + 1)).map (fun (i : Nat) =>
          (getX + (i : Int),
            map outputMin outputMax
              (pixelDb log10 M c (pixelFreq log10 pow10 i (n + 1)) sr))))[i]?
          = some (getX + (i : Int),
              map outputMin outputMax
                (pixelDb log10 M c (pixelFreq log10 pow10 i (n + 1)) sr)) := by
      intro i hi
      simp [List.getElem?_range hi]
    refine ⟨?_, ?_, _, paint_succ log10 pow10 M c sr getX outputMin outputMax n, ?_, ?_, ?_⟩
    · have h0 := hget 0 (by omega)
      intro hnone
      rw [List.head?_eq_none_iff] at hnone
      rw [hnone] at h0
      simp at h0
    · intro i _ hi
      rw [computeMags_length] at hi
      rw [hget i hi]
      simp
    · simp
    · intro i hi
      exact ⟨_, hget i hi, hpt i hi⟩
    · intro i j p q hij hp hq
      have hj : j < n + 1 := by
        have := (List.getElem?_eq_some_iff.1 hq).1
        simpa using this
      rw [hpt i (by omega)] at hp
      rw [hpt j hj] at hq
      cases hp
      cases hq
      simp
      omega
  · intro hw
    subst hw
    refine ⟨rfl, rfl, rfl⟩

/-- Witness of C10: the response area of the default editor size, 600 pixels
wide, and a response area of width zero, on `unityChain` over the rationals. -/
theorem paint_curve_index_safety_witness :
    (1 ≤ 600
      ∧ ∃ pts, paint id id gainMagnitude (unityChain : MonoChain ℚ) 44100 0 133 0 600
          = some pts ∧ pts.length = 600)
    ∧ ((0 : Nat) = 0
      ∧ paint id id gainMagnitude (unityChain : MonoChain ℚ) 44100 0 133 0 0 = none) :=
  ⟨⟨by decide,
      let ⟨pts, h1, h2, _⟩ :=
        ((paint_curve_index_safety id id gainMagnitude (unityChain : MonoChain ℚ) 44100 0
          133 0 600).1 (by decide)).2.2
      ⟨pts, h1, h2⟩⟩,
    ⟨rfl, ((paint_curve_index_safety id id gainMagnitude (unityChain : MonoChain ℚ) 44100 0
      133 0 0).2 rfl).2.2⟩⟩

end Claims

end SimpleEQ
